import Mathlib

/-!
Verification of the Statistics Engine of `src/pages/1_Analyse.py`
(myanimestats). Columns of the polars DataFrame `user_animes` are modelled
as Lean lists; a nullable column is a `List (Option _)`. Scores and
durations are rationals (Python floats / timedeltas carry exact decimal
values in the ranges used here); float division by zero, which polars
propagates as IEEE NaN / infinities, is modelled by the explicit value
type `FVal` below.
-/

namespace MyAnimeStats

/-- Result of a float computation: either a finite value, an infinity, or
NaN. polars score columns are Float64; dividing by zero yields ±inf or NaN
rather than raising. -/
inductive FVal where
  | nan : FVal
  | pinf : FVal
  | ninf : FVal
  | val : ℚ → FVal
deriving DecidableEq

/-- IEEE division as performed by polars on Float64 columns: a zero
denominator gives NaN when the numerator is zero, a signed infinity
otherwise; otherwise exact rational division. -/
def fdiv (a b : ℚ) : FVal :=
  if b = 0 then (if a = 0 then .nan else if 0 < a then .pinf else .ninf)
  else .val (a / b)

/-- IEEE evaluation of `1 - x` (the outer subtraction in `scale_scores`):
NaN propagates, infinities flip sign. -/
def fsub1 : FVal → FVal
  | .nan => .nan
  | .pinf => .ninf
  | .ninf => .pinf
  | .val q => .val (1 - q)

/-- IEEE negation. -/
def fneg : FVal → FVal
  | .nan => .nan
  | .pinf => .ninf
  | .ninf => .pinf
  | .val q => .val (-q)

/-- IEEE addition: NaN propagates, opposite infinities give NaN. -/
def fadd : FVal → FVal → FVal
  | .nan, _ => .nan
  | _, .nan => .nan
  | .pinf, .ninf => .nan
  | .ninf, .pinf => .nan
  | .pinf, _ => .pinf
  | _, .pinf => .pinf
  | .ninf, _ => .ninf
  | _, .ninf => .ninf
  | .val a, .val b => .val (a + b)

/-- IEEE subtraction, `a - b = a + (-b)`. -/
def fsub (a b : FVal) : FVal := fadd a (fneg b)

/-- IEEE absolute value (`Series.abs`): NaN propagates, both infinities
map to +inf. -/
def fabs : FVal → FVal
  | .nan => .nan
  | .pinf => .pinf
  | .ninf => .pinf
  | .val q => .val |q|

/-- IEEE doubling (the `* 2` applied to the mean in the normie-ness
line). -/
def fmul2 : FVal → FVal
  | .nan => .nan
  | .pinf => .pinf
  | .ninf => .ninf
  | .val q => .val (2 * q)

/-- Sum of a Float64 column (no nulls present), as `Series.sum` computes
it. -/
def fsum (l : List FVal) : FVal := l.foldr fadd (.val 0)

/-- `Series.mean` of a Float64 column without nulls: `None` on the empty
series, otherwise the sum divided by the (positive, finite) length; NaN
and infinities pass through that final division unchanged. -/
def fmeanPos (l : List FVal) : Option FVal :=
  if l.isEmpty then none
  else some (match fsum l with
    | .nan => .nan
    | .pinf => .pinf
    | .ninf => .ninf
    | .val s => .val (s / l.length))

/-- Sort key polars uses for Float64 columns: NaN compares above +inf,
-inf below every finite value. -/
def fkey : FVal → WithTop (WithTop (WithBot ℚ))
  | .nan => ⊤
  | .pinf => (⊤ : WithTop (WithBot ℚ))
  | .ninf => ((⊥ : WithBot ℚ) : WithTop (WithBot ℚ))
  | .val q => ((q : WithBot ℚ) : WithTop (WithBot ℚ))

/-! ### Rank scaling (`scale_scores`, lines 248-250)

`polars.Series.rank(descending=True)` with the default `"average"` method
assigns to a value `v` of the column the mean of the descending sort
positions occupied by the copies of `v`: with `g` values strictly greater
than `v` and `e` values equal to `v`, those positions are
`g+1, …, g+e`, whose mean is `g + (e+1)/2`. Nulls rank as null and are
not counted by `Series.count`. -/

/-- Number of column values strictly greater than `v`. -/
def countGt (l : List ℚ) (v : ℚ) : ℕ := l.countP (fun x => decide (v < x))

/-- Number of column values equal to `v`. -/
def countEq (l : List ℚ) (v : ℚ) : ℕ := l.countP (fun x => decide (x = v))

/-- Average descending rank of `v` within the column `l`. -/
def rankDesc (l : List ℚ) (v : ℚ) : ℚ :=
  (countGt l v : ℚ) + ((countEq l v : ℚ) + 1) / 2

/-- `Series.count`: number of non-null entries. -/
def colCount (xs : List (Option ℚ)) : ℕ := (xs.filterMap id).length

/-- `scale_scores` (lines 248-250):
`1 - (col.rank(descending=True) - 1) / (col.count() - 1)`.
Null entries stay null; each non-null value `v` becomes
`1 - (rank(v) - 1) / (n - 1)` computed in float arithmetic, where `n` is
the non-null count. -/
def scale_scores (xs : List (Option ℚ)) : List (Option FVal) :=
  let vals := xs.filterMap id
  xs.map (fun o => o.map (fun v =>
    fsub1 (fdiv (rankDesc vals v - 1) ((colCount xs : ℚ) - 1))))

/-- The finite rational the rank-scaling formula yields for the value `v`
of a plain (null-free) column `l` when the denominator is nonzero. -/
def scaledQ (l : List ℚ) (v : ℚ) : ℚ :=
  1 - (rankDesc l v - 1) / ((l.length : ℚ) - 1)

/-- The same formula over a nullable column (`colCount xs` is by
definition the length of the list of non-null values). -/
def scaledOf (xs : List (Option ℚ)) (v : ℚ) : ℚ :=
  scaledQ (xs.filterMap id) v

/-- The value grid `{0, 1/(n-1), 2/(n-1), …, 1}` (as a multiset) that the
spec asserts rank scaling permutes. -/
def rankGrid (n : ℕ) : Multiset FVal :=
  (Multiset.range n).map (fun k : ℕ => FVal.val ((k : ℚ) / ((n : ℚ) - 1)))

/-- Descending order on rationals, used to sort a score column for the
rank analysis. -/
def qGe (a b : ℚ) : Prop := b ≤ a

instance : DecidableRel qGe := fun a b => by
  unfold qGe; infer_instance

instance : IsTotal ℚ qGe :=
  ⟨fun a b => (le_total b a).imp id id⟩

instance : IsTrans ℚ qGe :=
  ⟨fun _ _ _ h1 h2 => le_trans h2 h1⟩

/-- Modelled from the spec: the contract the spec states for rank
scaling — fail with `InsufficientDataError` when the non-null count is
at most 1, otherwise apply `1 - (rank_desc - 1)/(n - 1)` exactly. Used
to compare the spec's error-handling contract with `scale_scores`. -/
def scale_scores_spec (xs : List (Option ℚ)) : Except String (List (Option ℚ)) :=
  if colCount xs ≤ 1 then .error "InsufficientDataError"
  else .ok (xs.map (fun o => o.map (fun v => scaledOf xs v)))

/-! ### The `user_animes` table -/

/-- One row of the `user_animes` DataFrame, restricted to the columns the
analysis page reads. `episode_avg_duration` is the per-episode duration
(a timedelta, modelled as a rational number of minutes). -/
structure AnimeRow where
  title : String
  episodes : Option ℕ
  episode_avg_duration : Option ℚ
  user_watch_episodes : Option ℕ
  user_scored : Option ℚ
  scored_avg : Option ℚ
  genres : Option (List String)
  themes : Option (List String)
  studios : Option (List String)
  demographics : Option (List String)
deriving DecidableEq

/-! ### Watched / to-watch duration (lines 113-126) -/

/-- `watched_duration` (lines 113-118): filter rows whose
`user_watch_episodes` is non-null, take
`user_watch_episodes * episode_avg_duration` (null when the duration is
null), and sum — polars `sum` skips null products. -/
def watched_duration (rows : List AnimeRow) : ℚ :=
  ((rows.filter (fun r => r.user_watch_episodes.isSome)).filterMap (fun r =>
    match r.user_watch_episodes, r.episode_avg_duration with
    | some w, some d => some ((w : ℚ) * d)
    | _, _ => none)).sum

/-- `pl.max_horizontal` on two nullable integer columns: the maximum of
the non-null operands, null only when both are null. -/
def max_horizontal (a b : Option ℕ) : Option ℕ :=
  match a, b with
  | some x, some y => some (max x y)
  | some x, none => some x
  | none, some y => some y
  | none, none => none

/-- `to_watch_duration` (lines 119-126):
`max_horizontal(episodes, user_watch_episodes) * episode_avg_duration`
summed over all rows, null products skipped by the sum. -/
def to_watch_duration (rows : List AnimeRow) : ℚ :=
  (rows.filterMap (fun r =>
    match max_horizontal r.episodes r.user_watch_episodes, r.episode_avg_duration with
    | some m, some d => some ((m : ℚ) * d)
    | _, _ => none)).sum

/-- Per-entry contribution to `watched_duration` as the spec words it:
an entry with null `user_watch_episodes` contributes nothing, otherwise
`user_watch_episodes * episode_avg_duration` (nothing when the duration
itself is absent). -/
def wContrib (r : AnimeRow) : ℚ :=
  match r.user_watch_episodes, r.episode_avg_duration with
  | some w, some d => (w : ℚ) * d
  | _, _ => 0

/-- Per-entry contribution to `to_watch_duration` as the spec words it:
`max(episodes, user_watch_episodes) * episode_avg_duration`. -/
def tContrib (r : AnimeRow) : ℚ :=
  match max_horizontal r.episodes r.user_watch_episodes, r.episode_avg_duration with
  | some m, some d => (m : ℚ) * d
  | _, _ => 0

/-! ### Categorical score breakdown (`score_box_plot`, lines 200-221)

The pipeline filters rows with a non-null `user_scored`, explodes the tag
column, groups by tag value, keeps the groups with at least
`threshold = 8` scores and a non-null key, computes each kept group's
mean score, and sorts by `(mean_score, key)` descending. Group keys are
pairwise distinct, so the descending sort on `(mean_score, key)` is a
total order and the output order is independent of the (unspecified)
`group_by` traversal order. -/

/-- Result of `explode` on the selected `(user_scored, key)` frame: a
row whose tag list is null or empty explodes to a single row with a null
tag, otherwise to one row per tag occurrence. -/
def exploded (rows : List AnimeRow) (key : AnimeRow → Option (List String)) :
    List (ℚ × Option String) :=
  (rows.filterMap (fun r => r.user_scored.map (fun s => (s, key r)))).flatMap
    (fun p => match p.2 with
      | none => [(p.1, none)]
      | some [] => [(p.1, none)]
      | some ts => ts.map (fun t => (p.1, some t)))

/-- One group of the box-plot data: the tag value, the aggregated
`user_scored` list, and its mean. -/
structure ScoreGroup where
  key : String
  user_scored : List ℚ
  mean_score : ℚ
deriving DecidableEq

/-- The hard-coded minimum sample count of `score_box_plot`. -/
def score_threshold : ℕ := 8

/-- Descending `(mean_score, key)` order used by
`sort("mean_score", key, descending=True)`. -/
def groupRel (a b : ScoreGroup) : Prop :=
  b.mean_score < a.mean_score ∨ (b.mean_score = a.mean_score ∧ b.key ≤ a.key)

instance : DecidableRel groupRel := fun a b => by
  unfold groupRel; infer_instance

instance : IsTotal ScoreGroup groupRel := by
  constructor
  intro a b
  rcases lt_trichotomy a.mean_score b.mean_score with h | h | h
  · exact Or.inr (Or.inl h)
  · rcases le_total a.key b.key with hk | hk
    · exact Or.inr (Or.inr ⟨h, hk⟩)
    · exact Or.inl (Or.inr ⟨h.symm, hk⟩)
  · exact Or.inl (Or.inl h)

instance : IsTrans ScoreGroup groupRel := by
  constructor
  intro a b c hab hbc
  rcases hab with h1 | ⟨h1, hk1⟩
  · rcases hbc with h2 | ⟨h2, _⟩
    · exact Or.inl (h2.trans h1)
    · exact Or.inl (h2 ▸ h1)
  · rcases hbc with h2 | ⟨h2, hk2⟩
    · exact Or.inl (h1 ▸ h2)
    · exact Or.inr ⟨h2.trans h1, hk2.trans hk1⟩

/-- `score_box_plot` (lines 200-221), up to the final presentational
re-explosion: the kept groups in their final order. -/
def score_box_plot (rows : List AnimeRow) (key : AnimeRow → Option (List String)) :
    List ScoreGroup :=
  let ex := exploded rows key
  let keys := (ex.filterMap Prod.snd).dedup
  let groups := keys.map (fun k =>
    let scs := (ex.filter (fun p => decide (p.2 = some k))).map Prod.fst
    { key := k, user_scored := scs, mean_score := scs.sum / (scs.length : ℚ) })
  List.insertionSort groupRel
    (groups.filter (fun g => decide (score_threshold ≤ g.user_scored.length)))

/-! ### Co-occurrence (`co_occurrence`, lines 332-354) -/

/-- `itertools.combinations(l, 2)`: all positional pairs `(l[i], l[j])`
with `i < j`, in order. -/
def combinations2 {α : Type} : List α → List (α × α)
  | [] => []
  | x :: xs => xs.map (fun y => (x, y)) ++ combinations2 xs

/-- Python `sorted` on a list of strings (ascending, stable). -/
def pySorted (l : List String) : List String :=
  List.insertionSort (fun a b => a ≤ b) l

/-- The flat `co_occurrences` record list the source builds: for every
row, every positional pair of `sorted(row)`. -/
def coPairs (data : List (List String)) : List (String × String) :=
  data.flatMap (fun row => combinations2 (pySorted row))

/-- Descending order on the `count` column. -/
def pairRel (a b : (String × String) × ℕ) : Prop := b.2 ≤ a.2

instance : DecidableRel pairRel := fun a b => by
  unfold pairRel; infer_instance

instance : IsTotal ((String × String) × ℕ) pairRel :=
  ⟨fun a b => (le_total b.2 a.2).imp id id⟩

instance : IsTrans ((String × String) × ℕ) pairRel :=
  ⟨fun _ _ _ h1 h2 => le_trans h2 h1⟩

/-- `co_occurrence` (lines 332-354). On an input producing no pair the
source builds `pl.DataFrame([])`, a DataFrame with no columns at all, and
the following `group_by(["feature1", "feature2"])` raises
`ColumnNotFoundError`; otherwise pairs are grouped (one bucket per
distinct pair, counted with multiplicity) and sorted by count
descending. -/
def co_occurrence (data : List (List String)) :
    Except String (List ((String × String) × ℕ)) :=
  let pairs := coPairs data
  if pairs.isEmpty then .error "ColumnNotFoundError"
  else .ok (List.insertionSort pairRel
    (pairs.dedup.map (fun p => (p, pairs.count p))))

/-! ### Popularity bias (`unpopular_data` lines 252-265, `normie_ness`
line 287) -/

/-- One row of the `unpopular_data` frame (the columns added by the two
`with_columns` calls plus the two score columns). -/
structure UnpopRow where
  user_scored : ℚ
  scored_avg : ℚ
  user_scored_scaled : FVal
  scored_avg_scaled : FVal
  score_difference : FVal
  score_difference_abs : FVal
deriving DecidableEq

/-- The rows surviving `filter(scored_avg not null & user_scored not
null)`, as `(user_scored, scored_avg)` pairs. -/
def pairedScores (rows : List AnimeRow) : List (ℚ × ℚ) :=
  rows.filterMap (fun r => match r.scored_avg, r.user_scored with
    | some a, some u => some (u, a)
    | _, _ => none)

/-- The `unpopular_data` frame before its final sort. The rank of a value
depends only on the column's multiset of values, so applying
`scale_scores` to the filtered all-non-null column assigns to each row
the per-value formula evaluated at that row's score, with `n` the number
of filtered rows. -/
def unpopRows (rows : List AnimeRow) : List UnpopRow :=
  let pairs := pairedScores rows
  let us := pairs.map Prod.fst
  let sa := pairs.map Prod.snd
  pairs.map (fun p =>
    let uS := fsub1 (fdiv (rankDesc us p.1 - 1) ((pairs.length : ℚ) - 1))
    let aS := fsub1 (fdiv (rankDesc sa p.2 - 1) ((pairs.length : ℚ) - 1))
    let d := fsub uS aS
    { user_scored := p.1, scored_avg := p.2, user_scored_scaled := uS,
      scored_avg_scaled := aS, score_difference := d,
      score_difference_abs := fabs d })

/-- Descending order on `score_difference_abs` used by
`sort("score_difference_abs", descending=True)` (NaN sorts above every
number in polars). -/
def unpopRel (a b : UnpopRow) : Prop :=
  fkey b.score_difference_abs ≤ fkey a.score_difference_abs

instance : DecidableRel unpopRel := fun a b => by
  unfold unpopRel; infer_instance

instance : IsTotal UnpopRow unpopRel :=
  ⟨fun a b => (le_total (fkey b.score_difference_abs) (fkey a.score_difference_abs)).imp id id⟩

instance : IsTrans UnpopRow unpopRel :=
  ⟨fun _ _ _ h1 h2 => le_trans h2 h1⟩

/-- `unpopular_data` (lines 252-265): the filtered, scaled rows sorted by
absolute scaled difference, descending. -/
def unpopular_data (rows : List AnimeRow) : List UnpopRow :=
  List.insertionSort unpopRel (unpopRows rows)

/-- `normie_ness` (line 287):
`1 - (unpopular_data.get_column("score_difference_abs").mean() * 2)`.
On an empty frame `Series.mean` returns Python `None` and `None * 2`
raises `TypeError`. -/
def normie_ness (rows : List AnimeRow) : Except String FVal :=
  match fmeanPos ((unpopular_data rows).map (fun r => r.score_difference_abs)) with
  | none => .error "TypeError"
  | some m => .ok (fsub1 (fmul2 m))

/-- The increase order on the nullable `user_watch_episodes` field: a
null value increases to anything, a tracked count increases to a larger
tracked count. -/
def watchLe : Option ℕ → Option ℕ → Prop
  | none, _ => True
  | some _, none => False
  | some a, some b => a ≤ b

/-- A concrete row used to instantiate the universally quantified
statements: 12 episodes of 24 minutes, never tracked, no scores. -/
def exRowA : AnimeRow :=
  ⟨"A", some 12, some 24, none, none, none, none, none, none, none⟩

/-- A row with both scores present (user 7, catalog 8). -/
def exRowB : AnimeRow :=
  ⟨"B", some 12, some 24, some 3, some 7, some 8, none, none, none, none⟩

/-- A row with both scores present (user 9, catalog 6). -/
def exRowC : AnimeRow :=
  ⟨"C", some 12, some 24, some 0, some 9, some 6, none, none, none, none⟩

/-- Nine scored rows all tagged with the single genre `"X"`: enough
samples for the genre to pass the box-plot threshold. -/
def exRows9 : List AnimeRow :=
  (List.range 9).map (fun i =>
    ⟨"R", some 12, some 24, some 3, some (i : ℚ), some 8, some ["X"], none, none, none⟩)

example : scale_scores [some 5] = [some FVal.nan] := by
  norm_num [scale_scores, colCount, rankDesc, countGt, countEq, fdiv, fsub1,
    List.filterMap_cons, List.countP_cons, List.countP_nil]
example : scale_scores [some 5, some 7, none] =
    [some (FVal.val 0), some (FVal.val 1), none] := by
  norm_num [scale_scores, colCount, rankDesc, countGt, countEq, fdiv, fsub1,
    List.filterMap_cons, List.countP_cons, List.countP_nil]
example : scale_scores [some 5, some 5] =
    [some (FVal.val (1/2)), some (FVal.val (1/2))] := by
  norm_num [scale_scores, colCount, rankDesc, countGt, countEq, fdiv, fsub1,
    List.filterMap_cons, List.countP_cons, List.countP_nil]

/-! ### Lemmas: durations -/

lemma watched_duration_nil : watched_duration [] = 0 := rfl

lemma watched_duration_cons (r : AnimeRow) (rows : List AnimeRow) :
    watched_duration (r :: rows) = wContrib r + watched_duration rows := by
  unfold watched_duration wContrib
  rcases hw : r.user_watch_episodes with _ | w
  · simp [List.filter_cons, hw]
  · rcases hd : r.episode_avg_duration with _ | d
    · simp [List.filter_cons, List.filterMap_cons, hw, hd]
    · simp [List.filter_cons, List.filterMap_cons, hw, hd]

lemma watched_duration_eq (rows : List AnimeRow) :
    watched_duration rows = (rows.map wContrib).sum := by
  induction rows with
  | nil => rfl
  | cons r rows ih => rw [watched_duration_cons, List.map_cons, List.sum_cons, ih]

lemma to_watch_duration_cons (r : AnimeRow) (rows : List AnimeRow) :
    to_watch_duration (r :: rows) = tContrib r + to_watch_duration rows := by
  unfold to_watch_duration tContrib
  rcases hm : max_horizontal r.episodes r.user_watch_episodes with _ | m
  · simp [List.filterMap_cons, hm]
  · rcases hd : r.episode_avg_duration with _ | d
    · simp [List.filterMap_cons, hm, hd]
    · simp [List.filterMap_cons, hm, hd]

lemma to_watch_duration_eq (rows : List AnimeRow) :
    to_watch_duration rows = (rows.map tContrib).sum := by
  induction rows with
  | nil => rfl
  | cons r rows ih => rw [to_watch_duration_cons, List.map_cons, List.sum_cons, ih]

lemma wContrib_nonneg (r : AnimeRow)
    (hd : ∀ d, r.episode_avg_duration = some d → 0 ≤ d) : 0 ≤ wContrib r := by
  unfold wContrib
  rcases hw : r.user_watch_episodes with _ | w
  · simp
  · rcases hdd : r.episode_avg_duration with _ | d
    · simp
    · have := hd d hdd
      positivity

/-! ### Claim C5 -/

/-- C5: the watched-duration scalar equals the sum over all entries of
`user_watched_episodes * episode_avg_duration`, where an entry with null
`user_watched_episodes` is excluded from the sum (contributes nothing),
while an entry tracked with zero episodes watched contributes the value
`0 * episode_avg_duration = 0` of the formula itself. -/
theorem C5_watched_duration_sum (rows : List AnimeRow) :
    watched_duration rows = (rows.map wContrib).sum ∧
    (∀ r : AnimeRow, r.user_watch_episodes = none → wContrib r = 0) ∧
    (∀ r : AnimeRow, ∀ d : ℚ, r.user_watch_episodes = some 0 →
      r.episode_avg_duration = some d → wContrib r = 0 * d) := by
  refine ⟨watched_duration_eq rows, ?_, ?_⟩
  · intro r hr
    unfold wContrib
    rw [hr]
  · intro r d hr hd
    unfold wContrib
    rw [hr, hd]
    norm_num

/-- Witness for C5 at the concrete one-row store `[exRowA]`
(`user_watch_episodes = null`, 24-minute episodes): the sum formula holds
and the row contributes nothing. -/
theorem C5_watched_duration_sum_witness :
    watched_duration [exRowA] = ([exRowA].map wContrib).sum ∧ wContrib exRowA = 0 :=
  ⟨(C5_watched_duration_sum [exRowA]).1,
   (C5_watched_duration_sum [exRowA]).2.1 exRowA rfl⟩

/-! ### Claim C6 -/

/-- C6: the to-watch-duration scalar equals the sum over all entries of
`max(episode_count, user_watched_episodes) * episode_avg_duration`; an
entry with null `user_watched_episodes`, 12 episodes of 24 minutes
contributes `12 * 24 = 288` minutes there while contributing nothing to
the watched duration. -/
theorem C6_to_watch_duration_sum (rows : List AnimeRow) :
    to_watch_duration rows = (rows.map tContrib).sum ∧
    (∀ r : AnimeRow, r.episodes = some 12 → r.user_watch_episodes = none →
      r.episode_avg_duration = some 24 → tContrib r = 288 ∧ wContrib r = 0) := by
  refine ⟨to_watch_duration_eq rows, ?_⟩
  intro r he hw hd
  constructor
  · unfold tContrib max_horizontal
    rw [he, hw, hd]
    norm_num
  · unfold wContrib
    rw [hw]

/-- Witness for C6 at `[exRowA]` (12 episodes, 24-minute episodes, never
tracked): the sum formula holds, the row contributes 288 minutes to the
to-watch duration and 0 to the watched duration. -/
theorem C6_to_watch_duration_sum_witness :
    to_watch_duration [exRowA] = ([exRowA].map tContrib).sum ∧
      tContrib exRowA = 288 ∧ wContrib exRowA = 0 :=
  ⟨(C6_to_watch_duration_sum [exRowA]).1,
   (C6_to_watch_duration_sum [exRowA]).2 exRowA rfl rfl rfl⟩

/-! ### Claim C8 -/

/-- C8: the watched-duration scalar is monotonically non-decreasing when
a single entry's `user_watch_episodes` increases — including from null to
a tracked value — all other fields held fixed, provided the (per-episode)
durations are non-negative. -/
theorem C8_watched_duration_mono (pre post : List AnimeRow) (r : AnimeRow)
    (w : Option ℕ)
    (hd : ∀ x ∈ pre ++ r :: post, ∀ d, x.episode_avg_duration = some d → 0 ≤ d)
    (hw : watchLe r.user_watch_episodes w) :
    watched_duration (pre ++ r :: post) ≤
      watched_duration (pre ++ { r with user_watch_episodes := w } :: post) := by
  rw [watched_duration_eq, watched_duration_eq]
  simp only [List.map_append, List.map_cons, List.sum_append, List.sum_cons]
  have hr : wContrib r ≤ wContrib { r with user_watch_episodes := w } := by
    have hdr : ∀ d, r.episode_avg_duration = some d → (0:ℚ) ≤ d :=
      hd r (by simp)
    unfold wContrib watchLe at *
    rcases hwe : r.user_watch_episodes with _ | a
    · rcases w with _ | b
      · simp
      · rcases hdd : r.episode_avg_duration with _ | d
        · simp [hdd]
        · have := hdr d hdd
          simp only [hdd]
          positivity
    · rcases w with _ | b
      · rw [hwe] at hw
        exact absurd hw (by simp [watchLe])
      · rw [hwe] at hw
        rcases hdd : r.episode_avg_duration with _ | d
        · simp [hdd]
        · simp only [hdd]
          have h0 : (0:ℚ) ≤ d := hdr d hdd
          have : (a : ℚ) ≤ (b : ℚ) := by exact_mod_cast hw
          exact mul_le_mul_of_nonneg_right this h0
  linarith

/-- Witness for C8: increasing `exRowA`'s null watch count to 12 episodes
does not decrease the watched duration. -/
theorem C8_watched_duration_mono_witness :
    watched_duration [exRowA] ≤
      watched_duration [{ exRowA with user_watch_episodes := some 12 }] :=
  C8_watched_duration_mono [] [] exRowA (some 12)
    (by intro x hx d hdx
        simp only [List.nil_append, List.mem_singleton] at hx
        subst hx
        simp [exRowA] at hdx
        rw [← hdx]
        norm_num)
    (by simp [exRowA, watchLe])

/-! ### Claim C1 -/

/-- C1 counterexample: on a column with a single non-null score the code
does not fail with a named error — `scale_scores` evaluates
`(1 - 1) / (1 - 1) = 0/0` and silently returns NaN, whereas the spec's
contract demands `InsufficientDataError` there. -/
theorem C1_no_insufficient_data_error :
    scale_scores [some 5] = [some FVal.nan] ∧
    scale_scores_spec [some 5] = Except.error "InsufficientDataError" := by
  constructor
  · norm_num [scale_scores, colCount, rankDesc, countGt, countEq, fdiv, fsub1,
      List.filterMap_cons, List.countP_cons, List.countP_nil]
  · rfl

lemma colCount_cast_sub_one_ne_zero {xs : List (Option ℚ)}
    (h2 : 2 ≤ colCount xs) : (colCount xs : ℚ) - 1 ≠ 0 := by
  have : (2 : ℚ) ≤ (colCount xs : ℚ) := by exact_mod_cast h2
  intro h
  nlinarith

lemma fdiv_ne {a b : ℚ} (hb : b ≠ 0) : fdiv a b = FVal.val (a / b) := by
  unfold fdiv
  rw [if_neg hb]

lemma fsub1_val (q : ℚ) : fsub1 (FVal.val q) = FVal.val (1 - q) := rfl

lemma scale_scores_eq_map {xs : List (Option ℚ)} (h2 : 2 ≤ colCount xs) :
    scale_scores xs = xs.map (Option.map (fun v => FVal.val (scaledOf xs v))) := by
  have hb : ((xs.filterMap id).length : ℚ) - 1 ≠ 0 := colCount_cast_sub_one_ne_zero h2
  simp only [scale_scores, scaledOf, scaledQ, colCount, fdiv_ne hb, fsub1_val]

lemma scale_scores_eq_nan {xs : List (Option ℚ)} (h1 : colCount xs = 1) :
    scale_scores xs = xs.map (Option.map (fun _ => FVal.nan)) := by
  obtain ⟨w, hw⟩ := List.length_eq_one.mp (h1 : (xs.filterMap id).length = 1)
  unfold scale_scores
  apply List.map_congr_left
  intro o ho
  rcases o with _ | v
  · rfl
  · have hv : v ∈ xs.filterMap id := List.mem_filterMap.mpr ⟨some v, ho, rfl⟩
    rw [hw] at hv
    have hveq : v = w := by simpa using hv
    subst hveq
    have hc : colCount xs = 1 := h1
    rw [hw, hc]
    have hrank : rankDesc [v] v = 1 := by
      norm_num [rankDesc, countGt, countEq, List.countP_cons, List.countP_nil]
    simp only [Option.map_some']
    rw [hrank]
    norm_num [fdiv, fsub1]

/-- C1 amended: `scale_scores` maps each non-null value to
`1 - (rank_desc - 1)/(n - 1)` where `n` is the non-null count; when
`n = 1` the division is `0/0` and every non-null entry silently becomes
NaN — no error of any kind is raised. -/
theorem C1_scale_scores_formula (xs : List (Option ℚ)) :
    (2 ≤ colCount xs →
      scale_scores xs = xs.map (Option.map (fun v => FVal.val (scaledOf xs v)))) ∧
    (colCount xs = 1 →
      scale_scores xs = xs.map (Option.map (fun _ => FVal.nan))) :=
  ⟨fun h2 => scale_scores_eq_map h2, fun h1 => scale_scores_eq_nan h1⟩

/-- Witness for C1's amended statement: at a two-value column the exact
formula applies; at the singleton column `[some 3]` the output is NaN. -/
theorem C1_scale_scores_formula_witness :
    scale_scores [some 5, some 7] =
      [some 5, some 7].map (Option.map (fun v => FVal.val (scaledOf [some 5, some 7] v))) ∧
    scale_scores [some 3] = [some (3:ℚ)].map (Option.map (fun _ => FVal.nan)) :=
  ⟨(C1_scale_scores_formula [some 5, some 7]).1 (by
      norm_num [colCount, List.filterMap_cons]),
   (C1_scale_scores_formula [some 3]).2 (by
      norm_num [colCount, List.filterMap_cons])⟩

/-! ### Lemmas: average descending ranks -/

lemma countEq_pos {l : List ℚ} {v : ℚ} (hv : v ∈ l) : 1 ≤ countEq l v := by
  unfold countEq
  exact List.countP_pos_iff.mpr ⟨v, hv, by simp⟩

lemma countGt_add_countEq (l : List ℚ) (v : ℚ) :
    countGt l v + countEq l v = l.countP (fun x => decide (v ≤ x)) := by
  induction l with
  | nil => rfl
  | cons x t ih =>
    unfold countGt countEq at ih ⊢
    simp only [List.countP_cons]
    by_cases hlt : v < x
    · have h2 : ¬(x = v) := ne_of_gt hlt
      simp [hlt, h2, le_of_lt hlt]
      omega
    · by_cases heq : x = v
      · subst heq
        simp [lt_irrefl]
        omega
      · have hxv : x < v := lt_of_le_of_ne (not_lt.mp hlt) heq
        simp [hlt, heq, not_le.mpr hxv]
        omega

lemma rankDesc_bounds {l : List ℚ} {v : ℚ} (hv : v ∈ l) :
    1 ≤ rankDesc l v ∧ rankDesc l v ≤ (l.length : ℚ) := by
  have he : 1 ≤ countEq l v := countEq_pos hv
  have hle : countGt l v + countEq l v ≤ l.length := by
    rw [countGt_add_countEq]
    exact List.countP_le_length _
  have heq : (1:ℚ) ≤ (countEq l v : ℚ) := by exact_mod_cast he
  have hleq : (countGt l v : ℚ) + (countEq l v : ℚ) ≤ (l.length : ℚ) := by
    exact_mod_cast hle
  have hg : (0:ℚ) ≤ (countGt l v : ℚ) := by positivity
  unfold rankDesc
  constructor <;> linarith

lemma scaledQ_bounds {l : List ℚ} {v : ℚ} (h2 : 2 ≤ l.length) (hv : v ∈ l) :
    0 ≤ scaledQ l v ∧ scaledQ l v ≤ 1 := by
  obtain ⟨h1, hn⟩ := rankDesc_bounds hv
  have hlen : (2:ℚ) ≤ (l.length : ℚ) := by exact_mod_cast h2
  have hd : (0:ℚ) < (l.length : ℚ) - 1 := by linarith
  unfold scaledQ
  constructor
  · have hq : (rankDesc l v - 1) / ((l.length : ℚ) - 1) ≤ 1 := by
      rw [div_le_one hd]
      linarith
    linarith
  · have hq : 0 ≤ (rankDesc l v - 1) / ((l.length : ℚ) - 1) :=
      div_nonneg (by linarith) (le_of_lt hd)
    linarith

lemma rankDesc_lt_of_gt {l : List ℚ} {v w : ℚ} (hv : v ∈ l) (hw : w ∈ l)
    (hlt : w < v) : rankDesc l v + 1 ≤ rankDesc l w := by
  have hkey : l.countP (fun x => decide (v ≤ x)) ≤ countGt l w := by
    unfold countGt
    apply List.countP_mono_left
    intro x _ hx
    have hvx : v ≤ x := by simpa using hx
    simpa using lt_of_lt_of_le hlt hvx
  rw [← countGt_add_countEq] at hkey
  have hev : 1 ≤ countEq l v := countEq_pos hv
  have hew : 1 ≤ countEq l w := countEq_pos hw
  have h1 : (countGt l v : ℚ) + (countEq l v : ℚ) ≤ (countGt l w : ℚ) := by
    exact_mod_cast hkey
  have h2 : (1:ℚ) ≤ (countEq l v : ℚ) := by exact_mod_cast hev
  have h3 : (1:ℚ) ≤ (countEq l w : ℚ) := by exact_mod_cast hew
  unfold rankDesc
  linarith

lemma scaledQ_lt_of_gt {l : List ℚ} {v w : ℚ} (h2 : 2 ≤ l.length)
    (hv : v ∈ l) (hw : w ∈ l) (hlt : w < v) : scaledQ l w < scaledQ l v := by
  have hr := rankDesc_lt_of_gt hv hw hlt
  have hlen : (2:ℚ) ≤ (l.length : ℚ) := by exact_mod_cast h2
  have hd : (0:ℚ) < (l.length : ℚ) - 1 := by linarith
  have hq : (rankDesc l v - 1) / ((l.length : ℚ) - 1) <
      (rankDesc l w - 1) / ((l.length : ℚ) - 1) :=
    div_lt_div_of_pos_right (by linarith) hd
  unfold scaledQ
  linarith

/-! ### Claim C2 -/

/-- C2: contrary to the contract that an input that is empty after
filtering yields a valid empty result, both named computations raise.
`co_occurrence` of an empty tag column — and likewise of rows that
produce no pair — builds `pl.DataFrame([])`, which has no columns, and
`group_by(["feature1", "feature2"])` raises `ColumnNotFoundError`;
`normie_ness` of a store with no entry having both scores takes the mean
of an empty column (`None`) and `None * 2` raises `TypeError`. -/
theorem C2_empty_input_errors :
    co_occurrence ([] : List (List String)) = Except.error "ColumnNotFoundError" ∧
    co_occurrence [["Solo"]] = Except.error "ColumnNotFoundError" ∧
    normie_ness ([] : List AnimeRow) = Except.error "TypeError" :=
  ⟨rfl, rfl, rfl⟩

/-! ### Claim C10 -/

/-- C10: for a column with at least two non-null values, every non-null
entry's rank-scaled output is a finite value in the closed interval
[0, 1] — ties and their average ranks included — and rank scaling is
strictly order-preserving on distinct scores. -/
theorem C10_scale_scores_bounds_strict_mono (xs : List (Option ℚ))
    (h2 : 2 ≤ colCount xs) (v w : ℚ) (hv : some v ∈ xs) (hw : some w ∈ xs) :
    some (FVal.val (scaledOf xs v)) ∈ scale_scores xs ∧
    0 ≤ scaledOf xs v ∧ scaledOf xs v ≤ 1 ∧
    (w < v → scaledOf xs w < scaledOf xs v) := by
  have hv' : v ∈ xs.filterMap id := List.mem_filterMap.mpr ⟨some v, hv, rfl⟩
  have hw' : w ∈ xs.filterMap id := List.mem_filterMap.mpr ⟨some w, hw, rfl⟩
  have h2' : 2 ≤ (xs.filterMap id).length := h2
  obtain ⟨h0, h1⟩ := scaledQ_bounds h2' hv'
  refine ⟨?_, h0, h1, ?_⟩
  · rw [scale_scores_eq_map h2]
    exact List.mem_map.mpr ⟨some v, hv, rfl⟩
  · intro hlt
    exact scaledQ_lt_of_gt h2' hv' hw' hlt

/-- Witness for C10 at the column `[some 5, some 7]`, `v = 7`, `w = 5`. -/
theorem C10_scale_scores_bounds_strict_mono_witness :
    some (FVal.val (scaledOf [some 5, some 7] 7)) ∈ scale_scores [some 5, some 7] ∧
    0 ≤ scaledOf [some 5, some 7] 7 ∧ scaledOf [some 5, some 7] 7 ≤ 1 ∧
    ((5:ℚ) < 7 → scaledOf [some 5, some 7] 5 < scaledOf [some 5, some 7] 7) :=
  C10_scale_scores_bounds_strict_mono [some 5, some 7]
    (by norm_num [colCount, List.filterMap_cons]) 7 5 (by simp) (by simp)

/-! ### Lemmas: offset invariance and the rank grid -/

lemma filterMap_id_map_optionMap {α β : Type} (f : α → β) (xs : List (Option α)) :
    (xs.map (Option.map f)).filterMap id = (xs.filterMap id).map f := by
  induction xs with
  | nil => rfl
  | cons o t ih => rcases o with _ | v <;> simp [ih]

lemma colCount_map (f : ℚ → ℚ) (xs : List (Option ℚ)) :
    colCount (xs.map (Option.map f)) = colCount xs := by
  unfold colCount
  rw [filterMap_id_map_optionMap, List.length_map]

lemma countGt_shift (l : List ℚ) (v c : ℚ) :
    countGt (l.map (fun x => x + c)) (v + c) = countGt l v := by
  unfold countGt
  rw [List.countP_map]
  apply List.countP_congr
  intro x _
  simp

lemma countEq_shift (l : List ℚ) (v c : ℚ) :
    countEq (l.map (fun x => x + c)) (v + c) = countEq l v := by
  unfold countEq
  rw [List.countP_map]
  apply List.countP_congr
  intro x _
  simp

lemma rankDesc_shift (l : List ℚ) (v c : ℚ) :
    rankDesc (l.map (fun x => x + c)) (v + c) = rankDesc l v := by
  unfold rankDesc
  rw [countGt_shift, countEq_shift]

lemma scale_scores_shift (xs : List (Option ℚ)) (c : ℚ) :
    scale_scores (xs.map (Option.map (fun v => v + c))) = scale_scores xs := by
  simp only [scale_scores, filterMap_id_map_optionMap, colCount_map, List.map_map]
  apply List.map_congr_left
  intro o _
  rcases o with _ | v
  · rfl
  · simp only [Function.comp_apply, Option.map_some']
    rw [rankDesc_shift]

lemma countEq_eq_one {l : List ℚ} (hnd : l.Nodup) {v : ℚ} (hv : v ∈ l) :
    countEq l v = 1 := by
  induction l with
  | nil => cases hv
  | cons x t ih =>
    obtain ⟨hxt, hndt⟩ := List.nodup_cons.mp hnd
    unfold countEq at ih ⊢
    rw [List.countP_cons]
    rcases List.mem_cons.mp hv with h | h
    · subst h
      have hz : t.countP (fun y => decide (y = v)) = 0 :=
        List.countP_eq_zero.mpr (fun y hy => by
          have : y ≠ v := fun hyv => hxt (hyv ▸ hy)
          simpa using this)
      simp [hz]
    · have hx : ¬(x = v) := fun hxv => hxt (hxv ▸ h)
      have := ih hndt h
      simp [hx, this]

lemma countGt_map_self_sorted (l : List ℚ) :
    List.Sorted (fun a b => b < a) l →
    l.map (fun v => countGt l v) = List.range l.length := by
  induction l with
  | nil => intro _; rfl
  | cons x t ih =>
    intro h
    obtain ⟨hx, ht⟩ := List.sorted_cons.mp h
    have h0 : countGt (x :: t) x = 0 := by
      unfold countGt
      rw [List.countP_cons]
      have hz : t.countP (fun y => decide (x < y)) = 0 :=
        List.countP_eq_zero.mpr (fun y hy => by
          simpa using not_lt.mpr (le_of_lt (hx y hy)))
      simp [hz]
    have hstep : ∀ v ∈ t, countGt (x :: t) v = countGt t v + 1 := by
      intro v hv
      unfold countGt
      rw [List.countP_cons]
      have hvx : v < x := hx v hv
      simp [hvx]
    rw [List.map_cons, h0, List.map_congr_left hstep]
    have hcomp : t.map (fun v => countGt t v + 1) =
        (t.map (fun v => countGt t v)).map (fun k => k + 1) := by
      rw [List.map_map]
      rfl
    rw [hcomp, ih ht, List.length_cons, List.range_succ_eq_map]

lemma multiset_range_reflect (n : ℕ) :
    (Multiset.range n).map (fun k => n - 1 - k) = Multiset.range n := by
  induction n with
  | zero => rfl
  | succ m ih =>
    have h1 : m + 1 - 1 - m = 0 := by omega
    have h2 : (Multiset.range m).map (fun k => m + 1 - 1 - k) =
        (Multiset.range m).map (fun k => (m - 1 - k) + 1) := by
      apply Multiset.map_congr rfl
      intro k hk
      have : k < m := Multiset.mem_range.mp hk
      omega
    have h3 : (Multiset.range m).map (fun k => (m - 1 - k) + 1) =
        ((Multiset.range m).map (fun k => m - 1 - k)).map (fun k => k + 1) := by
      rw [Multiset.map_map]
      rfl
    have key : Multiset.range (m + 1) =
        (0 : ℕ) ::ₘ (Multiset.range m).map (fun k => k + 1) := by
      have hl : Multiset.range (m + 1) =
          ((0 :: (List.range m).map Nat.succ : List ℕ) : Multiset ℕ) := by
        rw [show Multiset.range (m + 1) =
          ((List.range (m + 1) : List ℕ) : Multiset ℕ) from rfl, List.range_succ_eq_map]
      rw [hl, ← Multiset.cons_coe, ← Multiset.map_coe]
      congr 1
    calc (Multiset.range (m + 1)).map (fun k => m + 1 - 1 - k)
        = (m ::ₘ Multiset.range m).map (fun k => m + 1 - 1 - k) := by
          rw [Multiset.range_succ]
      _ = 0 ::ₘ (Multiset.range m).map (fun k => m + 1 - 1 - k) := by
          rw [Multiset.map_cons, h1]
      _ = 0 ::ₘ ((Multiset.range m).map (fun k => m - 1 - k)).map (fun k => k + 1) := by
          rw [h2, h3]
      _ = 0 ::ₘ (Multiset.range m).map (fun k => k + 1) := by rw [ih]
      _ = Multiset.range (m + 1) := key.symm

lemma rankGrid_reflect {n : ℕ} (h2 : 2 ≤ n) :
    rankGrid n =
      (Multiset.range n).map (fun k : ℕ => FVal.val (1 - (k : ℚ) / ((n : ℚ) - 1))) := by
  have hd : ((n : ℚ) - 1) ≠ 0 := by
    have : (2:ℚ) ≤ (n : ℚ) := by exact_mod_cast h2
    intro h
    nlinarith
  unfold rankGrid
  conv_lhs => rw [← multiset_range_reflect n, Multiset.map_map]
  apply Multiset.map_congr rfl
  intro k hk
  have hk' : k < n := Multiset.mem_range.mp hk
  have h1 : ((n - 1 - k : ℕ) : ℚ) = (n : ℚ) - 1 - (k : ℚ) := by
    rw [Nat.cast_sub (by omega), Nat.cast_sub (by omega), Nat.cast_one]
  simp only [Function.comp_apply]
  rw [h1]
  congr 1
  rw [sub_div, div_self hd]

lemma rankDesc_perm {l₁ l₂ : List ℚ} (h : l₁.Perm l₂) (v : ℚ) :
    rankDesc l₁ v = rankDesc l₂ v := by
  unfold rankDesc countGt countEq
  rw [h.countP_eq, h.countP_eq]

lemma scaledQ_perm {l₁ l₂ : List ℚ} (h : l₁.Perm l₂) (v : ℚ) :
    scaledQ l₁ v = scaledQ l₂ v := by
  unfold scaledQ
  rw [rankDesc_perm h, h.length_eq]

lemma scale_scores_grid {xs : List (Option ℚ)} (h2 : 2 ≤ colCount xs)
    (hnd : (xs.filterMap id).Nodup) :
    ((scale_scores xs).filterMap id : Multiset FVal) = rankGrid (colCount xs) := by
  have hperm : (List.insertionSort qGe (xs.filterMap id)).Perm (xs.filterMap id) :=
    List.perm_insertionSort qGe (xs.filterMap id)
  set s := List.insertionSort qGe (xs.filterMap id) with hs
  have hsorted : List.Sorted qGe s := List.sorted_insertionSort qGe (xs.filterMap id)
  have hnds : s.Nodup := hperm.nodup_iff.mpr hnd
  have hstrict : List.Sorted (fun a b => b < a) s :=
    (hsorted.and hnds).imp (fun hab => lt_of_le_of_ne hab.1 (Ne.symm hab.2))
  have hslen : s.length = colCount xs := hperm.length_eq
  have h2s : 2 ≤ s.length := by omega
  rw [scale_scores_eq_map h2, filterMap_id_map_optionMap]
  have hcoe : ((xs.filterMap id).map (fun v => FVal.val (scaledOf xs v)) : Multiset FVal) =
      (s.map (fun v => FVal.val (scaledOf xs v)) : Multiset FVal) :=
    Multiset.coe_eq_coe.mpr ((hperm.map _).symm)
  rw [hcoe]
  have hmap1 : s.map (fun v => FVal.val (scaledOf xs v)) =
      s.map (fun v => FVal.val (scaledQ s v)) :=
    List.map_congr_left (fun v _ => by
      show FVal.val (scaledQ (xs.filterMap id) v) = FVal.val (scaledQ s v)
      rw [scaledQ_perm hperm.symm])
  have hmap2 : s.map (fun v => FVal.val (scaledQ s v)) =
      s.map (fun v => FVal.val (1 - (countGt s v : ℚ) / ((s.length : ℚ) - 1))) :=
    List.map_congr_left (fun v hv => by
      unfold scaledQ rankDesc
      rw [countEq_eq_one hnds hv]
      norm_num)
  have hmap3 : s.map (fun v => FVal.val (1 - (countGt s v : ℚ) / ((s.length : ℚ) - 1))) =
      (s.map (fun v => countGt s v)).map
        (fun k : ℕ => FVal.val (1 - (k : ℚ) / ((s.length : ℚ) - 1))) := by
    rw [List.map_map]
    rfl
  rw [hmap1, hmap2, hmap3, countGt_map_self_sorted s hstrict, hslen]
  rw [rankGrid_reflect h2]
  rw [show Multiset.range (colCount xs) =
    ((List.range (colCount xs) : List ℕ) : Multiset ℕ) from rfl, ← Multiset.map_coe]

/-! ### Claim C7 -/

/-- C7 counterexample: on the tied column `[5, 5]` (n = 2) the average
ranks give both entries the scaled value 1/2, which is not a permutation
of the grid `{0, 1}`. -/
theorem C7_ties_not_grid :
    scale_scores [some 5, some 5] = [some (FVal.val (1/2)), some (FVal.val (1/2))] ∧
    ((scale_scores [some 5, some 5]).filterMap id : Multiset FVal) ≠ rankGrid 2 := by
  have h : scale_scores [some 5, some 5] = [some (FVal.val (1/2)), some (FVal.val (1/2))] := by
    norm_num [scale_scores, colCount, rankDesc, countGt, countEq, fdiv, fsub1,
      List.filterMap_cons, List.countP_cons, List.countP_nil]
  refine ⟨h, ?_⟩
  rw [h]
  intro hEq
  have hm : FVal.val (1/2) ∈
      (([some (FVal.val (1/2)), some (FVal.val (1/2))].filterMap id : List FVal) :
        Multiset FVal) := by
    simp
  rw [hEq] at hm
  unfold rankGrid at hm
  rw [show (2:ℕ) = 1 + 1 from rfl, Multiset.range_succ, Multiset.range_succ,
    Multiset.range_zero, Multiset.map_cons, Multiset.map_cons, Multiset.map_zero] at hm
  simp only [Multiset.mem_cons, Multiset.not_mem_zero, or_false, FVal.val.injEq] at hm
  rcases hm with hm | hm <;> norm_num at hm

/-- C7 amended: for a column of n ≥ 2 non-null scores *without ties* the
scaled outputs are exactly (a permutation of) the grid
`{0, 1/(n-1), …, 1}`; with tied scores the average ranks leave the grid.
Offset invariance holds unconditionally: adding one global constant to
every score leaves the scaled column unchanged. -/
theorem C7_scale_scores_grid_offset (xs : List (Option ℚ)) :
    (2 ≤ colCount xs → (xs.filterMap id).Nodup →
      ((scale_scores xs).filterMap id : Multiset FVal) = rankGrid (colCount xs)) ∧
    (∀ c : ℚ, scale_scores (xs.map (Option.map (fun v => v + c))) = scale_scores xs) :=
  ⟨fun h2 hnd => scale_scores_grid h2 hnd, fun c => scale_scores_shift xs c⟩

/-- Witness for C7's amended statement at the column `[some 5, some 7]`
(distinct values, n = 2) with offset `c = 1`. -/
theorem C7_scale_scores_grid_offset_witness :
    ((scale_scores [some 5, some 7]).filterMap id : Multiset FVal) = rankGrid 2 ∧
    scale_scores ([some 5, some 7].map (Option.map (fun v => v + 1))) =
      scale_scores [some 5, some 7] :=
  ⟨(C7_scale_scores_grid_offset [some 5, some 7]).1
      (by norm_num [colCount, List.filterMap_cons])
      (by norm_num [List.filterMap_cons]),
   (C7_scale_scores_grid_offset [some 5, some 7]).2 1⟩

/-! ### Lemmas: float sums and means over finite columns -/

lemma fsub_val (a b : ℚ) : fsub (FVal.val a) (FVal.val b) = FVal.val (a - b) := by
  unfold fsub fneg fadd
  rw [sub_eq_add_neg]

lemma fsum_val_bounds (l : List FVal)
    (h : ∀ x ∈ l, ∃ q, x = FVal.val q ∧ 0 ≤ q ∧ q ≤ 1) :
    ∃ s : ℚ, fsum l = FVal.val s ∧ 0 ≤ s ∧ s ≤ (l.length : ℚ) := by
  induction l with
  | nil => exact ⟨0, rfl, le_refl 0, by norm_num⟩
  | cons x t ih =>
    obtain ⟨q, hq, h0, h1⟩ := h x (by simp)
    obtain ⟨s, hs, hs0, hs1⟩ := ih (fun y hy => h y (by simp [hy]))
    refine ⟨q + s, ?_, by linarith, ?_⟩
    · unfold fsum at hs ⊢
      rw [List.foldr_cons, hs, hq]
      rfl
    · rw [List.length_cons]
      push_cast
      linarith

lemma fmeanPos_val_bounds {l : List FVal} (hne : l ≠ [])
    (h : ∀ x ∈ l, ∃ q, x = FVal.val q ∧ 0 ≤ q ∧ q ≤ 1) :
    ∃ m : ℚ, fmeanPos l = some (FVal.val m) ∧ 0 ≤ m ∧ m ≤ 1 := by
  obtain ⟨s, hs, hs0, hs1⟩ := fsum_val_bounds l h
  have hlen : 0 < l.length := List.length_pos.mpr hne
  have hlenq : (0:ℚ) < (l.length : ℚ) := by exact_mod_cast hlen
  refine ⟨s / l.length, ?_, div_nonneg hs0 (le_of_lt hlenq), ?_⟩
  · unfold fmeanPos
    rw [if_neg (by simpa [List.isEmpty_iff] using hne), hs]
  · rw [div_le_one hlenq]
    exact hs1

/-! ### Lemmas: the unpopular-opinions frame -/

lemma pairedScores_fst_length (rows : List AnimeRow) :
    ((pairedScores rows).map Prod.fst).length = (pairedScores rows).length :=
  List.length_map _ _

lemma unpopRows_abs_spec {rows : List AnimeRow}
    (h2 : 2 ≤ (pairedScores rows).length) :
    ∀ r ∈ unpopRows rows, ∃ q, r.score_difference_abs = FVal.val q ∧ 0 ≤ q ∧ q ≤ 1 := by
  intro r hr
  unfold unpopRows at hr
  simp only [List.mem_map] at hr
  obtain ⟨p, hp, hpr⟩ := hr
  subst hpr
  have hd : ((pairedScores rows).length : ℚ) - 1 ≠ 0 := by
    have : (2:ℚ) ≤ ((pairedScores rows).length : ℚ) := by exact_mod_cast h2
    intro h
    nlinarith
  have hu : p.1 ∈ (pairedScores rows).map Prod.fst := List.mem_map_of_mem _ hp
  have ha : p.2 ∈ (pairedScores rows).map Prod.snd := List.mem_map_of_mem _ hp
  have hlu : 2 ≤ ((pairedScores rows).map Prod.fst).length := by
    rw [List.length_map]
    exact h2
  have hla : 2 ≤ ((pairedScores rows).map Prod.snd).length := by
    rw [List.length_map]
    exact h2
  obtain ⟨hu0, hu1⟩ := scaledQ_bounds hlu hu
  obtain ⟨ha0, ha1⟩ := scaledQ_bounds hla ha
  have hdu : ((((pairedScores rows).map Prod.fst).length : ℚ) - 1) =
      (((pairedScores rows).length : ℚ) - 1) := by
    rw [List.length_map]
  refine ⟨|scaledQ ((pairedScores rows).map Prod.fst) p.1 -
    scaledQ ((pairedScores rows).map Prod.snd) p.2|, ?_, abs_nonneg _, ?_⟩
  · show fabs (fsub (fsub1 (fdiv _ _)) (fsub1 (fdiv _ _))) = _
    rw [fdiv_ne hd, fdiv_ne hd, fsub1_val, fsub1_val, fsub_val]
    unfold scaledQ
    rw [List.length_map, List.length_map]
    rfl
  · rw [abs_le]
    constructor <;> linarith

/-! ### Claim C9 -/

/-- C9: with at least two paired scores, the normie-ness scalar is the
finite value `1 - 2 * mean(score_difference_abs)` and lies in [-1, 1]
(it can reach values below 0), and the `unpopular_data` table is sorted
descending by `score_difference_abs`. -/
theorem C9_normie_ness_bounds (rows : List AnimeRow)
    (h2 : 2 ≤ (pairedScores rows).length) :
    (∃ m : ℚ, 0 ≤ m ∧ m ≤ 1 ∧
      fmeanPos ((unpopular_data rows).map (fun r => r.score_difference_abs)) =
        some (FVal.val m) ∧
      normie_ness rows = Except.ok (FVal.val (1 - 2 * m)) ∧
      -1 ≤ 1 - 2 * m ∧ 1 - 2 * m ≤ 1) ∧
    List.Sorted (fun a b : UnpopRow => ∀ qa qb,
      a.score_difference_abs = FVal.val qa → b.score_difference_abs = FVal.val qb →
      qb ≤ qa) (unpopular_data rows) := by
  have hspec0 := unpopRows_abs_spec h2
  have hperm : (unpopular_data rows).Perm (unpopRows rows) :=
    List.perm_insertionSort _ _
  have hspec : ∀ r ∈ unpopular_data rows,
      ∃ q, r.score_difference_abs = FVal.val q ∧ 0 ≤ q ∧ q ≤ 1 :=
    fun r hr => hspec0 r (hperm.mem_iff.mp hr)
  constructor
  · have hlen : (unpopular_data rows).length = (pairedScores rows).length := by
      rw [hperm.length_eq]
      unfold unpopRows
      rw [List.length_map]
    have hne : (unpopular_data rows).map (fun r => r.score_difference_abs) ≠ [] := by
      intro hnil
      have := congrArg List.length hnil
      rw [List.length_map, hlen, List.length_nil] at this
      omega
    obtain ⟨m, hm, h0, h1⟩ := fmeanPos_val_bounds hne (by
      intro x hx
      rw [List.mem_map] at hx
      obtain ⟨r, hr, rfl⟩ := hx
      exact hspec r hr)
    refine ⟨m, h0, h1, hm, ?_, by linarith, by linarith⟩
    unfold normie_ness
    rw [hm]
    rfl
  · have hs := List.sorted_insertionSort unpopRel (unpopRows rows)
    refine List.Pairwise.imp ?_ hs
    intro a b hab qa qb hqa hqb
    unfold unpopRel at hab
    rw [hqa, hqb] at hab
    simpa [fkey] using hab

/-- Witness for C9 at the two-row store `[exRowB, exRowC]` (scores
user 7 / catalog 8 and user 9 / catalog 6). -/
theorem C9_normie_ness_bounds_witness :
    (∃ m : ℚ, 0 ≤ m ∧ m ≤ 1 ∧
      fmeanPos ((unpopular_data [exRowB, exRowC]).map (fun r => r.score_difference_abs)) =
        some (FVal.val m) ∧
      normie_ness [exRowB, exRowC] = Except.ok (FVal.val (1 - 2 * m)) ∧
      -1 ≤ 1 - 2 * m ∧ 1 - 2 * m ≤ 1) ∧
    List.Sorted (fun a b : UnpopRow => ∀ qa qb,
      a.score_difference_abs = FVal.val qa → b.score_difference_abs = FVal.val qb →
      qb ≤ qa) (unpopular_data [exRowB, exRowC]) :=
  C9_normie_ness_bounds [exRowB, exRowC]
    (by norm_num [pairedScores, exRowB, exRowC, List.filterMap_cons])

/-! ### Lemmas: co-occurrence -/

lemma combinations2_of_sorted {l : List String}
    (h : List.Sorted (fun a b : String => a ≤ b) l) :
    ∀ p ∈ combinations2 l, p.1 ≤ p.2 := by
  induction l with
  | nil => intro p hp; cases hp
  | cons x t ih =>
    intro p hp
    obtain ⟨hx, ht⟩ := List.sorted_cons.mp h
    unfold combinations2 at hp
    rw [List.mem_append] at hp
    rcases hp with hp | hp
    · obtain ⟨y, hy, rfl⟩ := List.mem_map.mp hp
      exact hx y hy
    · exact ih ht p hp

lemma coPairs_ordered (data : List (List String)) :
    ∀ p ∈ coPairs data, p.1 ≤ p.2 := by
  intro p hp
  unfold coPairs at hp
  obtain ⟨row, _, hrow⟩ := List.mem_flatMap.mp hp
  exact combinations2_of_sorted
    (List.sorted_insertionSort (fun a b : String => a ≤ b) row) p hrow

/-! ### Claim C3 -/

/-- C3 counterexample: an entry with tags `{"Action", "Drama", "Action"}`
does double-count: `combinations(sorted(row), 2)` yields the positional
pairs (Action, Action), (Action, Drama), (Action, Drama), so the result
holds `(Action, Drama)` with count 2 — not 1 — and the self-pair
`(Action, Action)`. -/
theorem C3_duplicate_tags_double_count :
    co_occurrence [["Action", "Drama", "Action"]] =
      Except.ok [(("Action", "Drama"), 2), (("Action", "Action"), 1)] ∧
    (∃ l, co_occurrence [["Action", "Drama", "Action"]] = Except.ok l ∧
      (("Action", "Action"), 1) ∈ l ∧ (("Action", "Drama"), 1) ∉ l ∧
      (("Action", "Drama"), 2) ∈ l) := by
  have h : co_occurrence [["Action", "Drama", "Action"]] =
      Except.ok [(("Action", "Drama"), 2), (("Action", "Action"), 1)] := by
    with_unfolding_all rfl
  exact ⟨h, ⟨_, h, by decide, by decide, by decide⟩⟩

/-- C3 amended: `co_occurrence` buckets the *positional* pairs of each
entry's sorted tag list: every returned pair is in ascending (canonical)
order so (A,B) and (B,A) share one bucket, each bucket's count is the
number of positional occurrences of that pair across entries (so an
entry with a duplicated tag value contributes a self-pair and counts the
repeated pair more than once), every occurring pair appears in exactly
one bucket, and buckets are sorted by count descending. -/
theorem C3_co_occurrence_spec (data : List (List String))
    (hne : coPairs data ≠ []) :
    ∃ l, co_occurrence data = Except.ok l ∧
      (∀ pc ∈ l, pc.1.1 ≤ pc.1.2 ∧ pc.2 = (coPairs data).count pc.1 ∧ 0 < pc.2) ∧
      List.Sorted (fun a b : (String × String) × ℕ => b.2 ≤ a.2) l ∧
      (∀ p : String × String, p ∈ coPairs data ↔ ∃ c, (p, c) ∈ l) ∧
      (l.map Prod.fst).Nodup := by
  have hperm : (List.insertionSort pairRel ((coPairs data).dedup.map
      (fun p => (p, (coPairs data).count p)))).Perm
      ((coPairs data).dedup.map (fun p => (p, (coPairs data).count p))) :=
    List.perm_insertionSort _ _
  refine ⟨List.insertionSort pairRel ((coPairs data).dedup.map
    (fun p => (p, (coPairs data).count p))), ?_, ?_, ?_, ?_, ?_⟩
  · unfold co_occurrence
    rw [if_neg (by simpa [List.isEmpty_iff] using hne)]
  · intro pc hpc
    obtain ⟨p, hp, hpc⟩ := List.mem_map.mp (hperm.mem_iff.mp hpc)
    subst hpc
    have hmem : p ∈ coPairs data := List.mem_dedup.mp hp
    exact ⟨coPairs_ordered data p hmem, rfl, List.count_pos_iff.mpr hmem⟩
  · exact List.sorted_insertionSort pairRel _
  · intro p
    constructor
    · intro hp
      exact ⟨(coPairs data).count p,
        hperm.mem_iff.mpr (List.mem_map_of_mem _ (List.mem_dedup.mpr hp))⟩
    · rintro ⟨c, hc⟩
      obtain ⟨q, hq, heq⟩ := List.mem_map.mp (hperm.mem_iff.mp hc)
      have : q = p := congrArg Prod.fst heq
      subst this
      exact List.mem_dedup.mp hq
  · have hmapid : ((coPairs data).dedup.map
        (fun p => (p, (coPairs data).count p))).map Prod.fst = (coPairs data).dedup := by
      rw [List.map_map]
      exact List.map_id _
    have := (hperm.map Prod.fst).nodup_iff
    rw [hmapid] at this
    exact this.mpr (List.nodup_dedup _)

/-- Witness for C3's amended statement at the duplicate-tag input
`[["Action", "Drama", "Action"]]`. -/
theorem C3_co_occurrence_spec_witness :
    ∃ l, co_occurrence [["Action", "Drama", "Action"]] = Except.ok l ∧
      (∀ pc ∈ l, pc.1.1 ≤ pc.1.2 ∧
        pc.2 = (coPairs [["Action", "Drama", "Action"]]).count pc.1 ∧ 0 < pc.2) ∧
      List.Sorted (fun a b : (String × String) × ℕ => b.2 ≤ a.2) l ∧
      (∀ p : String × String,
        p ∈ coPairs [["Action", "Drama", "Action"]] ↔ ∃ c, (p, c) ∈ l) ∧
      (l.map Prod.fst).Nodup :=
  C3_co_occurrence_spec [["Action", "Drama", "Action"]] (by
    have hlist : coPairs [["Action", "Drama", "Action"]] =
        [("Action", "Action"), ("Action", "Drama"), ("Action", "Drama")] := by
      with_unfolding_all rfl
    rw [hlist]
    simp)

/-! ### Claim C4 -/

/-- C4: the categorical score breakdown groups the non-null-score rows by
tag value, keeps exactly the groups with at least `score_threshold = 8`
samples (and a non-null tag), computes each kept group's mean score, and
returns the kept groups sorted by mean score descending; an
under-threshold tag yields no group at all. -/
theorem C4_score_box_plot_spec (rows : List AnimeRow)
    (key : AnimeRow → Option (List String)) :
    (∀ g ∈ score_box_plot rows key,
      score_threshold ≤ g.user_scored.length ∧
      g.user_scored =
        ((exploded rows key).filter (fun p => decide (p.2 = some g.key))).map Prod.fst ∧
      g.mean_score = g.user_scored.sum / (g.user_scored.length : ℚ)) ∧
    List.Sorted (fun a b : ScoreGroup => b.mean_score ≤ a.mean_score)
      (score_box_plot rows key) ∧
    (∀ tag : String,
      (∃ g ∈ score_box_plot rows key, g.key = tag) ↔
      score_threshold ≤
        (((exploded rows key).filter
          (fun p => decide (p.2 = some tag))).map Prod.fst).length) := by
  set ex := exploded rows key with hex
  set mk : String → ScoreGroup := fun k =>
    { key := k,
      user_scored := (ex.filter (fun p => decide (p.2 = some k))).map Prod.fst,
      mean_score := ((ex.filter (fun p => decide (p.2 = some k))).map Prod.fst).sum /
        (((ex.filter (fun p => decide (p.2 = some k))).map Prod.fst).length : ℚ) }
    with hmk
  have hdef : score_box_plot rows key = List.insertionSort groupRel
      (((ex.filterMap Prod.snd).dedup.map mk).filter
        (fun g => decide (score_threshold ≤ g.user_scored.length))) := rfl
  have hperm : (score_box_plot rows key).Perm
      (((ex.filterMap Prod.snd).dedup.map mk).filter
        (fun g => decide (score_threshold ≤ g.user_scored.length))) := by
    rw [hdef]
    exact List.perm_insertionSort _ _
  have hmem : ∀ g ∈ score_box_plot rows key,
      score_threshold ≤ g.user_scored.length ∧ ∃ k, g = mk k := by
    intro g hg
    have hh := hperm.mem_iff.mp hg
    rw [List.mem_filter] at hh
    obtain ⟨hmem0, hpass⟩ := hh
    obtain ⟨k, _, rfl⟩ := List.mem_map.mp hmem0
    exact ⟨by simpa using hpass, ⟨k, rfl⟩⟩
  refine ⟨?_, ?_, ?_⟩
  · intro g hg
    obtain ⟨hth, k, rfl⟩ := hmem g hg
    exact ⟨hth, rfl, rfl⟩
  · rw [hdef]
    exact (List.sorted_insertionSort groupRel _).imp (fun hab => by
      rcases hab with h | ⟨h, _⟩
      · exact le_of_lt h
      · exact le_of_eq h)
  · intro tag
    constructor
    · rintro ⟨g, hg, rfl⟩
      obtain ⟨hth, k, hk⟩ := hmem g hg
      rw [hk] at hth ⊢
      exact hth
    · intro hth
      have hpos : 0 < (ex.filter (fun p => decide (p.2 = some tag))).length := by
        have h8 : 0 < score_threshold := by norm_num [score_threshold]
        rw [List.length_map] at hth
        omega
      obtain ⟨p, hp⟩ := List.exists_mem_of_length_pos hpos
      rw [List.mem_filter] at hp
      have hptag : p.2 = some tag := by simpa using hp.2
      have htag : tag ∈ (ex.filterMap Prod.snd).dedup :=
        List.mem_dedup.mpr (List.mem_filterMap.mpr ⟨p, hp.1, hptag⟩)
      refine ⟨mk tag, ?_, rfl⟩
      apply hperm.mem_iff.mpr
      rw [List.mem_filter]
      exact ⟨List.mem_map_of_mem _ htag, by simpa using hth⟩

/-- Witness for C4 at the concrete nine-row store `exRows9` with the
genre dimension. -/
theorem C4_score_box_plot_spec_witness :
    (∀ g ∈ score_box_plot exRows9 (fun r => r.genres),
      score_threshold ≤ g.user_scored.length ∧
      g.user_scored =
        ((exploded exRows9 (fun r => r.genres)).filter
          (fun p => decide (p.2 = some g.key))).map Prod.fst ∧
      g.mean_score = g.user_scored.sum / (g.user_scored.length : ℚ)) ∧
    List.Sorted (fun a b : ScoreGroup => b.mean_score ≤ a.mean_score)
      (score_box_plot exRows9 (fun r => r.genres)) ∧
    (∀ tag : String,
      (∃ g ∈ score_box_plot exRows9 (fun r => r.genres), g.key = tag) ↔
      score_threshold ≤
        (((exploded exRows9 (fun r => r.genres)).filter
          (fun p => decide (p.2 = some tag))).map Prod.fst).length) :=
  C4_score_box_plot_spec exRows9 (fun r => r.genres)

end MyAnimeStats
